import Mathlib

/-!
Verification of the numerical core of `src/arnold-or-barack.py`.

The program builds eigenface models (data-matrix construction, PCA,
projection/reconstruction) and classifies test images by reconstruction
error.  This file gives a shallow embedding of that core and proves or
refutes the specified properties about it.

Modelling conventions:
* floating point numbers are modelled by `ℚ` (the properties at stake are
  arithmetic/structural, not rounding behaviour);
* external library calls keep their documented semantics: `np.cov`,
  `np.mean`, matrix products and Python's stable `sorted` are modelled
  directly from their documentation, while `np.linalg.eig` (an external
  LAPACK routine with no pinned-down output) is a parameter `EigSolver`
  of the embedding;
* a Python exception (IndexError, ValueError, a cv2 error on a missing
  file) is modelled by `Option.none`.
-/

set_option maxRecDepth 8192

namespace AorB

/-! ## DataMatrixBuilder: construct_data_matrix (lines 119-150) -/

/-- Pixel rows of a grayscale image as produced by
`cv2.cvtColor(cv2.imread(...), COLOR_BGR2GRAY)`: a list of rows of pixel
values. -/
abbrev GrayImage := List (List ℚ)

/-- Shape component `gray_img.shape[0]` (line 145): number of pixel rows. -/
def imgNumRows (img : GrayImage) : ℕ := img.length

/-- Shape component `gray_img.shape[1]` (line 146): number of pixel columns,
read off the first row (cv2 images are rectangular). -/
def imgNumCols (img : GrayImage) : ℕ := (img.getD 0 []).length

/-- Numpy slice assignment `xs[a : a + len(row)] = row` on a 1-D buffer;
callers guard that the slice lies inside the buffer. -/
def writeSlice (xs : List ℚ) (a : ℕ) (row : List ℚ) : List ℚ :=
  xs.take a ++ row ++ xs.drop (a + row.length)

/-- Loop of lines 147-148: write image row `r` into the flat buffer at offset
`r * num_cols`.  `none` models the numpy broadcast `ValueError` raised when a
row does not fit inside the length-`P` buffer. -/
def copyRowsFrom (P W : ℕ) : List (List ℚ) → ℕ → List ℚ → Option (List ℚ)
  | [], _, xs => some xs
  | row :: rest, r, xs =>
      if r * W + row.length ≤ P then
        copyRowsFrom P W rest (r + 1) (writeSlice xs (r * W) row)
      else
        none

/-- Lines 145-148: flatten one grayscale image into a length-`P` row of the
data matrix, starting from the `np.zeros` row. -/
def copyImageRows (P : ℕ) (img : GrayImage) : Option (List ℚ) :=
  copyRowsFrom P (imgNumCols img) img 0 (List.replicate P 0)

/-- construct_data_matrix (lines 119-150).  `src` models the external image
store accessed through `cv2.imread` keyed by the numeric identifiers in
`numbers`; `src i = none` models a missing file, for which `cv2.imread`
returns `None` and the subsequent `cvtColor` call raises an (untyped) cv2
error, aborting the whole construction. -/
def constructDataMatrix (P : ℕ) (src : ℕ → Option GrayImage) :
    List ℕ → Option (List (List ℚ))
  | [] => some []
  | i :: rest =>
      match (src i).bind (copyImageRows P) with
      | none => none
      | some rowi =>
          match constructDataMatrix P src rest with
          | none => none
          | some rows => some (rowi :: rows)

lemma join_length_of_rect (W : ℕ) :
    ∀ rows : List (List ℚ), (∀ row ∈ rows, row.length = W) →
      rows.flatten.length = rows.length * W := by
  intro rows
  induction rows with
  | nil => intro _; simp
  | cons row rest ih =>
      intro h
      have hrow : row.length = W := h row (List.mem_cons_self _ _)
      have hrest := ih fun r hr => h r (List.mem_cons_of_mem _ hr)
      simp only [List.flatten_cons, List.length_append, List.length_cons, hrow, hrest]
      ring

lemma copyRowsFrom_fill (P W : ℕ) :
    ∀ (rows : List (List ℚ)) (r : ℕ) (pre : List ℚ),
      (∀ row ∈ rows, row.length = W) → pre.length = r * W →
      (r + rows.length) * W ≤ P →
      copyRowsFrom P W rows r (pre ++ List.replicate (P - r * W) 0) =
        some (pre ++ rows.flatten ++ List.replicate (P - (r + rows.length) * W) 0) := by
  intro rows
  induction rows with
  | nil =>
      intro r pre _ _ _
      simp [copyRowsFrom]
  | cons row rest ih =>
      intro r pre hrect hpre hfit
      have hrow : row.length = W := hrect row (List.mem_cons_self _ _)
      have hfit1 : r * W + row.length ≤ P := by
        have h1 : (r + 1) * W ≤ (r + (row :: rest).length) * W :=
          Nat.mul_le_mul_right _ (by simp)
        have h2 : (r + 1) * W = r * W + W := by ring
        omega
      have hws : writeSlice (pre ++ List.replicate (P - r * W) 0) (r * W) row =
          (pre ++ row) ++ List.replicate (P - (r + 1) * W) 0 := by
        unfold writeSlice
        have htake : (pre ++ List.replicate (P - r * W) 0).take (r * W) = pre := by
          rw [← hpre]
          exact List.take_left _ _
        have hdrop : (pre ++ List.replicate (P - r * W) 0).drop (r * W + row.length) =
            List.replicate (P - (r + 1) * W) 0 := by
          rw [← List.drop_drop]
          rw [← hpre, List.drop_left]
          rw [List.drop_replicate]
          congr 1
          have : (r + 1) * W = r * W + W := by ring
          omega
        rw [htake, hdrop]
      have hlen : (pre ++ row).length = (r + 1) * W := by
        simp [List.length_append, hpre, hrow]; ring
      have hfit' : ((r + 1) + rest.length) * W ≤ P := by
        have : (r + 1) + rest.length = r + (row :: rest).length := by simp; omega
        rw [this]; exact hfit
      have hrect' : ∀ row' ∈ rest, row'.length = W :=
        fun r' hr' => hrect r' (List.mem_cons_of_mem _ hr')
      unfold copyRowsFrom
      rw [if_pos hfit1, hws]
      rw [ih (r + 1) (pre ++ row) hrect' hlen hfit']
      congr 1
      have hidx : (r + 1 + rest.length) = r + (row :: rest).length := by simp; omega
      rw [hidx]
      simp [List.append_assoc]

lemma copyImageRows_fill (img : GrayImage) (W P : ℕ)
    (hrect : ∀ row ∈ img, row.length = W) (hfit : img.length * W ≤ P) :
    copyImageRows P img = some (img.flatten ++ List.replicate (P - img.length * W) 0) := by
  cases img with
  | nil => simp [copyImageRows, copyRowsFrom]
  | cons row rest =>
      have hcols : imgNumCols (row :: rest) = W := by
        simp [imgNumCols, hrect row (List.mem_cons_self _ _)]
      have h0 : (List.replicate P (0 : ℚ)) =
          ([] : List ℚ) ++ List.replicate (P - 0 * W) 0 := by simp
      unfold copyImageRows
      rw [hcols, h0]
      have := copyRowsFrom_fill P W (row :: rest) 0 [] hrect (by simp) (by simpa using hfit)
      rw [this]
      simp

/-- C10: for a sample whose grayscale image has fewer rows than the configured
height `H` (at the configured width `W`), construct_data_matrix raises no
error: it copies the `H' * W` image pixels into the front of the sample's row
and leaves the remaining `H * W - H' * W` entries at their zero
initialization, silently returning a partially-filled data matrix. -/
theorem construct_partial_fill_on_short_image
    (img : GrayImage) (H W : ℕ) (src : ℕ → Option GrayImage) (i : ℕ)
    (hrect : ∀ row ∈ img, row.length = W) (hH : img.length < H)
    (hsrc : src i = some img) :
    img.flatten.length = img.length * W ∧
    constructDataMatrix (H * W) src [i] =
      some [img.flatten ++ List.replicate (H * W - img.length * W) 0] := by
  have hfit : img.length * W ≤ H * W := Nat.mul_le_mul_right _ (le_of_lt hH)
  refine ⟨join_length_of_rect W img hrect, ?_⟩
  unfold constructDataMatrix
  rw [hsrc, Option.some_bind, copyImageRows_fill img W (H * W) hrect hfit]
  rfl

/-- Image source for the C10 witness: every identifier is backed by the same
two-row image of width 2. -/
def srcShort : ℕ → Option GrayImage := fun _ => some [[5, 6], [7, 8]]

/-- Witness for C10 at a concrete input: a 2-row image of width 2 against a
configured 3x2 roi is silently accepted with zero padding. -/
theorem construct_partial_fill_on_short_image_witness :
    ([[(5 : ℚ), 6], [7, 8]] : GrayImage).flatten.length =
      ([[(5 : ℚ), 6], [7, 8]] : GrayImage).length * 2 ∧
    constructDataMatrix (3 * 2) srcShort [0] =
      some [([[(5 : ℚ), 6], [7, 8]] : GrayImage).flatten ++
        List.replicate (3 * 2 - ([[(5 : ℚ), 6], [7, 8]] : GrayImage).length * 2) 0] :=
  construct_partial_fill_on_short_image [[5, 6], [7, 8]] 3 2 srcShort 0
    (by decide) (by decide) rfl

/-- C4 (amended part): if some identifier has no backing image, the whole
construction aborts (the code crashes with an untyped cv2 error rather than a
`MissingSampleError`, which does not exist in the code). -/
theorem construct_missing_image_aborts (P : ℕ) (src : ℕ → Option GrayImage)
    (ids : List ℕ) (h : ∃ i ∈ ids, src i = none) :
    constructDataMatrix P src ids = none := by
  induction ids with
  | nil => rcases h with ⟨i, hi, _⟩; cases hi
  | cons a rest ih =>
      rcases h with ⟨i, hi, hnone⟩
      rcases List.mem_cons.mp hi with rfl | hmem
      · unfold constructDataMatrix
        rw [hnone, Option.none_bind]
      · unfold constructDataMatrix
        cases hsrc : (src a).bind (copyImageRows P) with
        | none => rfl
        | some rowa => rw [ih ⟨i, hmem, hnone⟩]

/-- Witness for the amended C4 at a concrete input: one missing image aborts
the construction. -/
theorem construct_missing_image_aborts_witness :
    constructDataMatrix 6 (fun _ => none) [0] = none :=
  construct_missing_image_aborts 6 (fun _ => none) [0] ⟨0, by simp, rfl⟩

/-- Image source for the C4 counterexample: a 2-row image where 3 rows are
configured. -/
def srcMismatch : ℕ → Option GrayImage := fun _ => some [[1, 2], [3, 4]]

/-- C4 counterexample: with a configured roi of height 3 and width 2 (so
`P = 6`), an image whose grayscale dimensions are 2x2 (not the configured
3x2) triggers no `DimensionMismatchError`: construct_data_matrix silently
builds a matrix from the mismatched input. -/
theorem construct_accepts_mismatched_dims :
    imgNumRows [[(1 : ℚ), 2], [3, 4]] ≠ 3 ∧
    constructDataMatrix 6 srcMismatch [0] = some [[1, 2, 3, 4, 0, 0]] := by
  constructor
  · decide
  · rfl

/-! ## Numpy numeric primitives -/

/-- Length-`p` numeric vector. -/
abbrev Vec (p : ℕ) := Fin p → ℚ

/-- `n x p` numeric matrix. -/
abbrev Mat (n p : ℕ) := Matrix (Fin n) (Fin p) ℚ

/-- Models `np.mean(X, axis=0)` (line 213): column-wise average. -/
def npMeanAxis0 {n p : ℕ} (X : Mat n p) : Vec p := fun j => (∑ i, X i j) / (n : ℚ)

/-- Models `np.mean(M, axis=1)` (line 197): row-wise average. -/
def npMeanAxis1 {n p : ℕ} (M : Mat n p) : Vec n := fun i => (∑ j, M i j) / (p : ℚ)

/-- Lines 216-217: `X_ctr = X - mean`, the row-broadcast centering. -/
def centerMatrix {n p : ℕ} (X : Mat n p) : Mat n p :=
  fun i j => X i j - npMeanAxis0 X j

/-- Models numpy `np.cov(M)` per its documentation: rows of `M` are
variables, columns are observations, each variable is re-centered by its own
row mean, and the normalization divisor is `m - 1` (default `ddof=1`).  For a
single observation numpy produces nan where rational division by zero
produces `0`; every property proved about it below assumes at least two
observations. -/
def npCov {p m : ℕ} (M : Mat p m) : Mat p p :=
  fun i j =>
    (∑ t, (M i t - npMeanAxis1 M i) * (M j t - npMeanAxis1 M j)) / ((m : ℚ) - 1)

/-- Line 220: `X_cov = np.cov(X_ctr.T)`. -/
def pcaCovMatrix {n p : ℕ} (X : Mat n p) : Mat p p :=
  npCov (Matrix.transpose (centerMatrix X))

/-! ## Python stable sorting, with an index-tagged characterization -/

/-- Comparison under which an insertion sort models CPython's
`sorted(l, key=f, reverse=True)`: non-strict descending on the key. -/
def descKeyRel {α : Type} (key : α → ℚ) : α → α → Prop :=
  fun a b => key b ≤ key a

instance {α : Type} (key : α → ℚ) : DecidableRel (descKeyRel key) :=
  fun a b => inferInstanceAs (Decidable (key b ≤ key a))

instance {α : Type} (key : α → ℚ) : IsTotal α (descKeyRel key) :=
  ⟨fun a b => le_total (key b) (key a)⟩

instance {α : Type} (key : α → ℚ) : IsTrans α (descKeyRel key) :=
  ⟨fun _ _ _ h1 h2 => le_trans h2 h1⟩

/-- Model of CPython `sorted(l, key=key, reverse=True)` (line 229): a stable
descending sort.  Insertion sort with the non-strict descending comparison is
stable, matching the documented stability guarantee of CPython's sort. -/
def pySortDescBy {α : Type} (key : α → ℚ) (l : List α) : List α :=
  List.insertionSort (descKeyRel key) l

/-- Strict-descending-then-index lexicographic order on index-tagged
elements: the specified "descending by key, ties broken by original index
ascending" order. -/
def descLexRel {α : Type} (key : α → ℚ) : (ℕ × α) → (ℕ × α) → Prop :=
  fun x y => key y.2 < key x.2 ∨ (key x.2 = key y.2 ∧ x.1 ≤ y.1)

instance {α : Type} (key : α → ℚ) : DecidableRel (descLexRel key) :=
  fun x y =>
    inferInstanceAs (Decidable (key y.2 < key x.2 ∨ (key x.2 = key y.2 ∧ x.1 ≤ y.1)))

instance {α : Type} (key : α → ℚ) : IsTotal (ℕ × α) (descLexRel key) := by
  constructor
  intro x y
  rcases lt_trichotomy (key x.2) (key y.2) with h | h | h
  · exact Or.inr (Or.inl h)
  · rcases le_total x.1 y.1 with h' | h'
    · exact Or.inl (Or.inr ⟨h, h'⟩)
    · exact Or.inr (Or.inr ⟨h.symm, h'⟩)
  · exact Or.inl (Or.inl h)

instance {α : Type} (key : α → ℚ) : IsTrans (ℕ × α) (descLexRel key) := by
  constructor
  intro x y z hxy hyz
  rcases hxy with h1 | ⟨e1, i1⟩
  · rcases hyz with h2 | ⟨e2, _⟩
    · exact Or.inl (lt_trans h2 h1)
    · exact Or.inl (e2 ▸ h1)
  · rcases hyz with h2 | ⟨e2, i2⟩
    · exact Or.inl (e1 ▸ h2)
    · exact Or.inr ⟨e1.trans e2, le_trans i1 i2⟩

/-- Tag each list element with its position, starting from `i`. -/
def tagFrom {α : Type} (i : ℕ) : List α → List (ℕ × α)
  | [] => []
  | a :: l => (i, a) :: tagFrom (i + 1) l

lemma tagFrom_map_snd {α : Type} (i : ℕ) (l : List α) :
    (tagFrom i l).map Prod.snd = l := by
  induction l generalizing i with
  | nil => rfl
  | cons a l ih => simp [tagFrom, ih]

lemma tagFrom_tags_ge {α : Type} (i : ℕ) (l : List α) :
    ∀ q ∈ tagFrom i l, i ≤ q.1 := by
  induction l generalizing i with
  | nil => intro q hq; cases hq
  | cons a l ih =>
      intro q hq
      rcases List.mem_cons.mp hq with rfl | hq'
      · exact le_refl _
      · exact le_trans (Nat.le_succ _) (ih (i + 1) q hq')

lemma tagFrom_tags_increasing {α : Type} (i : ℕ) (l : List α) :
    (tagFrom i l).Pairwise (fun x y => x.1 < y.1) := by
  induction l generalizing i with
  | nil => exact List.Pairwise.nil
  | cons a l ih =>
      refine List.Pairwise.cons ?_ (ih (i + 1))
      intro q hq
      exact lt_of_lt_of_le (Nat.lt_succ_self i) (tagFrom_tags_ge (i + 1) l q hq)

lemma map_snd_orderedInsert {α : Type} (key : α → ℚ) (i : ℕ) (a : α) :
    ∀ L : List (ℕ × α), (∀ q ∈ L, i < q.1) →
      (List.orderedInsert (descLexRel key) (i, a) L).map Prod.snd =
        List.orderedInsert (descKeyRel key) a (L.map Prod.snd) := by
  intro L
  induction L with
  | nil => intro _; rfl
  | cons q L ih =>
      intro h
      obtain ⟨j, b⟩ := q
      have hij : i < j := h (j, b) (List.mem_cons_self _ _)
      have hiff : descLexRel key (i, a) (j, b) ↔ descKeyRel key a b := by
        unfold descLexRel descKeyRel
        constructor
        · rintro (hlt | ⟨heq, _⟩)
          · exact le_of_lt hlt
          · exact le_of_eq heq.symm
        · intro hle
          rcases lt_or_eq_of_le hle with hlt | heq
          · exact Or.inl hlt
          · exact Or.inr ⟨heq.symm, le_of_lt hij⟩
      by_cases hc : descKeyRel key a b
      · simp only [List.orderedInsert, List.map_cons]
        rw [if_pos (hiff.mpr hc), if_pos hc]
        rfl
      · simp only [List.orderedInsert, List.map_cons]
        rw [if_neg (fun hx => hc (hiff.mp hx)), if_neg hc]
        simp only [List.map_cons]
        rw [ih fun q' hq' => h q' (List.mem_cons_of_mem _ hq')]

lemma map_snd_insertionSort {α : Type} (key : α → ℚ) :
    ∀ T : List (ℕ × α), T.Pairwise (fun x y => x.1 < y.1) →
      (List.insertionSort (descLexRel key) T).map Prod.snd =
        List.insertionSort (descKeyRel key) (T.map Prod.snd) := by
  intro T
  induction T with
  | nil => intro _; rfl
  | cons q T ih =>
      intro h
      obtain ⟨hhead, htail⟩ := List.pairwise_cons.mp h
      obtain ⟨j, b⟩ := q
      rw [List.insertionSort, List.map_cons, List.insertionSort]
      rw [map_snd_orderedInsert key j b _ ?_, ih htail]
      intro q' hq'
      exact hhead q' ((List.perm_insertionSort _ T).mem_iff.mp hq')

/-- The stable descending sort equals the lexicographic (key descending,
original index ascending) sort of the index-tagged list, with the tags
erased: this is the stability/tie-break characterization of Python's
`sorted(..., reverse=True)`. -/
lemma pySortDescBy_eq_lex_sort {α : Type} (key : α → ℚ) (l : List α) :
    pySortDescBy key l =
      (List.insertionSort (descLexRel key) (tagFrom 0 l)).map Prod.snd := by
  rw [map_snd_insertionSort key _ (tagFrom_tags_increasing 0 l), tagFrom_map_snd]
  rfl

/-! ## PCA (lines 203-242) -/

/-- Output of the external eigensolver `np.linalg.eig` on a `p x p`
covariance matrix: `vals i` is eigenvalue `i` and `vecs` holds the
eigenvectors as columns (`vecs r i` = entry `r` of eigenvector `i`).  The
solver is an external LAPACK routine, so the embedding is parametric in
it. -/
structure EigResult (p : ℕ) where
  vals : Vec p
  vecs : Mat p p

/-- The external eigensolver as a parameter of the pipeline. -/
abbrev EigSolver (p : ℕ) := Mat p p → EigResult p

/-- One entry of `pca_components` (line 226): the tuple
`(mean[i], np.abs(eigenvalues[i]), eigenvectors[:, i])`.  A complex
eigenvalue's magnitude is modelled by the rational absolute value. -/
abbrev PCAComponent (p : ℕ) := ℚ × ℚ × Vec p

/-- Line 226: the list of component tuples, in solver-returned order. -/
def pcaComponents {p : ℕ} (mean : Vec p) (er : EigResult p) :
    List (PCAComponent p) :=
  (List.finRange p).map fun i => (mean i, |er.vals i|, fun r => er.vecs r i)

/-- The sort key `lambda x: x[1]` of line 229. -/
def componentKey {p : ℕ} (c : PCAComponent p) : ℚ := c.2.1

/-- Line 229: `sorted(pca_components, key=lambda x: x[1], reverse=True)`. -/
def pcaSortedComponents {n p : ℕ} (e : EigSolver p) (X : Mat n p) :
    List (PCAComponent p) :=
  pySortDescBy componentKey (pcaComponents (npMeanAxis0 X) (e (pcaCovMatrix X)))

/-- Line 230: `pca_components[0:number_of_components]`. -/
def pcaTopComponents {n p : ℕ} (e : EigSolver p) (X : Mat n p) (k : ℕ) :
    List (PCAComponent p) :=
  (pcaSortedComponents e X).take k

/-- The `[mean, eigenvalues, eigenvectors]` value returned by `pca` for a
requested component count `k`.  The `eigenvalues` field has the type the
code actually produces at line 233: `pca_components[:][1]` evaluates to the
single component tuple at index 1 of the truncated list, not to an array of
eigenvalues. -/
structure PCAModel (p k : ℕ) where
  mean : Vec p
  eigenvalues : PCAComponent p
  eigenvectors : Mat p k

/-- Value a `getD` lookup past the end of a component list falls back to;
line 234's `np.zeros` rows make the corresponding eigenvector columns zero. -/
def defaultComponent (p : ℕ) : PCAComponent p := (0, 0, fun _ => 0)

/-- Lines 234-237: a `k x P` zero matrix whose row `i` is set to
`pca_components[i][2]` for each retained component, then transposed to
`P x k` (rows past the end of the component list stay zero). -/
def buildEigenvectors {p : ℕ} (comps : List (PCAComponent p)) (k : ℕ) : Mat p k :=
  fun r c => (comps.getD (c : ℕ) (defaultComponent p)).2.2 r

/-- pca (lines 203-242).  The `match` models line 233,
`eigenvalues = pca_components[:][1]`: indexing the (copy of the) truncated
component list at position 1, which raises IndexError (`none`) when fewer
than two components remain. -/
def pca {n p : ℕ} (e : EigSolver p) (X : Mat n p) (k : ℕ) :
    Option (PCAModel p k) :=
  match (pcaTopComponents e X k)[1]? with
  | none => none
  | some t =>
      some { mean := npMeanAxis0 X
             eigenvalues := t
             eigenvectors := buildEigenvectors (pcaTopComponents e X k) k }

lemma pcaComponents_length {p : ℕ} (mean : Vec p) (er : EigResult p) :
    (pcaComponents mean er).length = p := by
  simp [pcaComponents]

lemma pcaSortedComponents_length {n p : ℕ} (e : EigSolver p) (X : Mat n p) :
    (pcaSortedComponents e X).length = p := by
  unfold pcaSortedComponents pySortDescBy
  rw [(List.perm_insertionSort _ _).length_eq]
  exact pcaComponents_length _ _

lemma pcaTopComponents_length {n p : ℕ} (e : EigSolver p) (X : Mat n p) (k : ℕ) :
    (pcaTopComponents e X k).length = min k p := by
  unfold pcaTopComponents
  rw [List.length_take, pcaSortedComponents_length]

lemma pca_eq_some_of_lt {n p : ℕ} (e : EigSolver p) (X : Mat n p) (k : ℕ)
    (h : 1 < (pcaTopComponents e X k).length) :
    pca e X k =
      some { mean := npMeanAxis0 X
             eigenvalues := (pcaTopComponents e X k).get ⟨1, h⟩
             eigenvectors := buildEigenvectors (pcaTopComponents e X k) k } := by
  have h1 : (pcaTopComponents e X k)[1]? = some ((pcaTopComponents e X k).get ⟨1, h⟩) := by
    rw [List.getElem?_eq_getElem h]
    rfl
  unfold pca
  rw [h1]

lemma pca_eq_none_of_le {n p : ℕ} (e : EigSolver p) (X : Mat n p) (k : ℕ)
    (h : (pcaTopComponents e X k).length ≤ 1) :
    pca e X k = none := by
  have h1 : (pcaTopComponents e X k)[1]? = none := List.getElem?_eq_none h
  unfold pca
  rw [h1]

/-! ## C3: no component-count validation in pca -/

/-- Concrete eigensolver output for the C3 counterexample. -/
def eigC3a : EigSolver 3 := fun _ => { vals := ![3, 2, 1], vecs := fun _ _ => 0 }

/-- Concrete 2x3 data matrix (N = 2 samples) for the C3 counterexample. -/
def XC3a : Mat 2 3 := fun _ _ => 0

/-- C3 counterexample: for `N = 2` rows and requested `k = 3 > N`, pca does
not raise `InvalidComponentCountError` (no such error exists in the code): it
returns a model. -/
theorem pca_returns_model_for_k_gt_N : pca eigC3a XC3a 3 ≠ none := by
  rw [pca_eq_some_of_lt eigC3a XC3a 3 (by rw [pcaTopComponents_length]; decide)]
  exact Option.some_ne_none _

/-- C3 amended: pca performs no component-count validation.  Whenever the
truncated component list keeps at least two entries (`2 ≤ k ≤ P`), pca
returns a model — including when `k` exceeds the number `N` of samples. -/
theorem pca_no_component_count_validation {n p : ℕ} (e : EigSolver p)
    (X : Mat n p) (k : ℕ) (h2 : 2 ≤ k) (hp : k ≤ p) :
    (pca e X k).isSome = true := by
  rw [pca_eq_some_of_lt e X k (by rw [pcaTopComponents_length]; omega)]
  rfl

/-- Concrete eigensolver output for the C3 witness. -/
def eigC3b : EigSolver 3 := fun _ => { vals := ![9, 8, 7], vecs := fun _ _ => 1 }

/-- Concrete 2x3 data matrix for the C3 witness. -/
def XC3b : Mat 2 3 := fun _ _ => 0

/-- Witness for the amended C3 at a concrete input with `k = 3 > N = 2`. -/
theorem pca_no_component_count_validation_witness :
    (pca eigC3b XC3b 3).isSome = true :=
  pca_no_component_count_validation eigC3b XC3b 3 (by decide) (by decide)

/-! ## C5: sorting, tie-break and selection policy of pca -/

/-- Everything C5 asserts about `pca e X k`: the sorted component list is a
permutation of the solver-order component list, sorted non-strictly
descending by absolute eigenvalue, and equal to the index-tagged
lexicographic sort (descending by absolute eigenvalue, ties broken by
original solver index ascending) with the tags erased; the truncation keeps
exactly the first `k` components; and column `j` of the returned `P x k`
eigenvector matrix is the eigenvector of the `j`-th selected component. -/
def PcaSortSelectSpec {n p : ℕ} (e : EigSolver p) (X : Mat n p) (k : ℕ) : Prop :=
  ∃ M : PCAModel p k, pca e X k = some M ∧
    List.Perm (pcaSortedComponents e X)
      (pcaComponents (npMeanAxis0 X) (e (pcaCovMatrix X))) ∧
    List.Sorted (descKeyRel componentKey) (pcaSortedComponents e X) ∧
    pcaSortedComponents e X =
      (List.insertionSort (descLexRel componentKey)
        (tagFrom 0 (pcaComponents (npMeanAxis0 X) (e (pcaCovMatrix X))))).map
        Prod.snd ∧
    List.Sorted (descLexRel componentKey)
      (List.insertionSort (descLexRel componentKey)
        (tagFrom 0 (pcaComponents (npMeanAxis0 X) (e (pcaCovMatrix X))))) ∧
    (pcaTopComponents e X k).length = k ∧
    ∀ j : Fin k, (fun r => M.eigenvectors r j) =
      ((pcaTopComponents e X k).getD (j : ℕ) (defaultComponent p)).2.2

/-- C5 (amended to `2 ≤ k ≤ P`): pca sorts the component tuples in
descending order of absolute eigenvalue with ties broken by original
solver-returned index ascending (Python's sort is stable), keeps exactly the
first `k`, and returns the selected eigenvectors as the columns of the
`P x k` matrix in selection order. -/
theorem pca_sorts_selects_descending {n p : ℕ} (e : EigSolver p) (X : Mat n p)
    (k : ℕ) (h2 : 2 ≤ k) (hp : k ≤ p) : PcaSortSelectSpec e X k := by
  have hlen : 1 < (pcaTopComponents e X k).length := by
    rw [pcaTopComponents_length]; omega
  refine ⟨_, pca_eq_some_of_lt e X k hlen, ?_, ?_, ?_, ?_, ?_, ?_⟩
  · exact List.perm_insertionSort _ _
  · exact List.sorted_insertionSort _ _
  · exact pySortDescBy_eq_lex_sort componentKey _
  · exact List.sorted_insertionSort _ _
  · rw [pcaTopComponents_length]; omega
  · intro j
    rfl

/-- Concrete eigensolver output for the C5 witness. -/
def eigC5w : EigSolver 2 := fun _ => { vals := ![3, 10], vecs := fun _ _ => 1 }

/-- Concrete 2x2 data matrix for the C5 witness. -/
def XC5w : Mat 2 2 := fun _ _ => 0

/-- Witness for the amended C5 at a concrete input. -/
theorem pca_sorts_selects_descending_witness : PcaSortSelectSpec eigC5w XC5w 2 :=
  pca_sorts_selects_descending eigC5w XC5w 2 (by decide) (by decide)

/-- Concrete eigensolver output for the C5 counterexample. -/
def eigC5x : EigSolver 2 := fun _ => { vals := ![4, 6], vecs := fun _ _ => 2 }

/-- Concrete 2x2 data matrix for the C5 counterexample. -/
def XC5x : Mat 2 2 := fun _ _ => 1

/-- C5 counterexample: at `k = 1` — inside the claim's range `1 ≤ k ≤ P` —
pca raises IndexError at line 233 (`pca_components[:][1]` on a one-element
list) and returns no eigenvector matrix at all. -/
theorem pca_crashes_at_k_one : pca eigC5x XC5x 1 = none :=
  pca_eq_none_of_le eigC5x XC5x 1 (by rw [pcaTopComponents_length]; decide)

/-! ## C1: the eigenvalues component actually returned by pca -/

/-- Follows the spec's words (section 4.2, step 6): the length-`k` eigenvalue
vector that pca is specified to assemble — the absolute eigenvalues of the
`k` selected components, in selection order. -/
def specSelectedEigenvalues {n p : ℕ} (e : EigSolver p) (X : Mat n p)
    (k : ℕ) : List ℚ :=
  (pcaTopComponents e X k).map componentKey

/-- Concrete eigensolver output for the C1 evaluation: eigenvalues `(5, 7)`
with eigenvector columns `(1, 3)` and `(2, 4)`. -/
def eigC1 : EigSolver 2 := fun _ =>
  { vals := ![5, 7], vecs := Matrix.of ![![1, 2], ![3, 4]] }

/-- Concrete 2x2 data matrix (all zero, so the column means are zero) for
the C1 evaluation. -/
def XC1 : Mat 2 2 := fun _ _ => 0

/-- C1 (code bug, line 233): at a concrete input with `k = 2`, the
`eigenvalues` component of the returned model is the single component tuple
`pca_components[1] = (mean[1], 5, (1, 3))` — carrying only the
second-largest eigenvalue magnitude — whereas the specified eigenvalue
vector for the same input is `[7, 5]`. -/
theorem pca_eigenvalues_slicing_bug :
    (pca eigC1 XC1 2).map (fun M => M.eigenvalues) =
      some ((0 : ℚ), (5 : ℚ), ![(1 : ℚ), 3]) ∧
    specSelectedEigenvalues eigC1 XC1 2 = [7, 5] := by
  have hfin2 : (List.finRange 2) = [0, 1] := by decide
  have hmean : npMeanAxis0 XC1 = fun _ => (0 : ℚ) := by
    funext j
    simp [npMeanAxis0, XC1]
  have hcol0 : (fun r => (eigC1 (pcaCovMatrix XC1)).vecs r 0) = ![(1 : ℚ), 3] := by
    funext r
    fin_cases r <;> simp [eigC1]
  have hcol1 : (fun r => (eigC1 (pcaCovMatrix XC1)).vecs r 1) = ![(2 : ℚ), 4] := by
    funext r
    fin_cases r <;> simp [eigC1]
  have hcomps : pcaComponents (npMeanAxis0 XC1) (eigC1 (pcaCovMatrix XC1)) =
      [((0 : ℚ), (5 : ℚ), ![(1 : ℚ), 3]), ((0 : ℚ), (7 : ℚ), ![(2 : ℚ), 4])] := by
    unfold pcaComponents
    rw [hfin2, hmean]
    simp only [List.map_cons, List.map_nil, hcol0, hcol1]
    norm_num [eigC1]
  have hsorted : pcaSortedComponents eigC1 XC1 =
      [((0 : ℚ), (7 : ℚ), ![(2 : ℚ), 4]), ((0 : ℚ), (5 : ℚ), ![(1 : ℚ), 3])] := by
    unfold pcaSortedComponents pySortDescBy
    rw [hcomps]
    simp only [List.insertionSort, List.orderedInsert]
    rw [if_neg (by norm_num [descKeyRel, componentKey])]
  have htop : pcaTopComponents eigC1 XC1 2 =
      [((0 : ℚ), (7 : ℚ), ![(2 : ℚ), 4]), ((0 : ℚ), (5 : ℚ), ![(1 : ℚ), 3])] := by
    unfold pcaTopComponents
    rw [hsorted]
    rfl
  constructor
  · unfold pca
    rw [htop]
    simp
  · unfold specSelectedEigenvalues
    rw [htop]
    simp [componentKey]

/-! ## Projector / Reconstructor: project_and_reconstruct (lines 245-265) -/

/-- project_and_reconstruct (lines 245-265): `projections = np.dot(X, V)`,
`reconstructions = np.dot(projections, V.T)`, then the loop of lines 262-263
adds `model.mean` to every reconstruction row (modelled pointwise; the loop
rewrites each row of the freshly allocated product, leaving the inputs
untouched). -/
def projectAndReconstruct {n p k : ℕ} (X : Mat n p) (m : PCAModel p k) :
    Mat n k × Mat n p :=
  (X * m.eigenvectors,
   fun i j => (X * m.eigenvectors * Matrix.transpose m.eigenvectors) i j + m.mean j)

/-- C7: for an (already centered) input matrix, the projections are exactly
the matrix product `Xc · V` (entry `(i, c)` is the dot product of row `i`
with eigenvector column `c`), and every reconstruction row `i` is
`projections[i] · V^T + mean`. -/
theorem projectAndReconstruct_linear_algebra {n p k : ℕ} (X : Mat n p)
    (m : PCAModel p k) :
    ((projectAndReconstruct X m).1 = X * m.eigenvectors ∧
      ∀ i c, (projectAndReconstruct X m).1 i c = ∑ t, X i t * m.eigenvectors t c) ∧
    ∀ i j, (projectAndReconstruct X m).2 i j =
      (∑ c, (projectAndReconstruct X m).1 i c * m.eigenvectors j c) + m.mean j := by
  refine ⟨⟨rfl, fun i c => Matrix.mul_apply⟩, fun i j => ?_⟩
  show (X * m.eigenvectors * Matrix.transpose m.eigenvectors) i j + m.mean j = _
  rw [Matrix.mul_apply]
  simp only [Matrix.transpose_apply]
  rfl

/-! ## Classifier: test_images (lines 172-200) -/

/-- test_images (lines 172-200): for each model in order, center the test
matrix by that model's mean (lines 193-194, allocating a fresh array: `X`
itself is untouched), project and reconstruct (line 196), and score with
`mse = np.mean((X - reconstructions) ** 2, axis=1)` (line 197) — against the
original, uncentered `X`. -/
def testImages {n p k : ℕ} (X : Mat n p) (models : List (PCAModel p k)) :
    List (Mat n p × Vec n) :=
  models.map fun m =>
    ((projectAndReconstruct (fun i j => X i j - m.mean j) m).2,
     npMeanAxis1
       (fun i j => (X i j - (projectAndReconstruct (fun i' j' => X i' j' - m.mean j') m).2 i j) ^ 2))

/-- The model-relative reconstruction of the Classifier (spec section 4.4):
center by the model's mean, project, reconstruct. -/
def reconstructionFor {n p k : ℕ} (X : Mat n p) (m : PCAModel p k) : Mat n p :=
  (projectAndReconstruct (fun i j => X i j - m.mean j) m).2

/-- C6: test_images returns exactly one (reconstruction, MSE) pair per model,
in the order of the input model list, and the MSE of sample `i` under each
model is the mean over the `P` pixels of the squared difference between the
original uncentered row `X[i]` and its reconstruction — the centered copy is
not the ground truth. -/
theorem testImages_one_scored_pair_per_model {n p k : ℕ} (X : Mat n p)
    (models : List (PCAModel p k)) :
    (testImages X models).length = models.length ∧
    testImages X models = models.map fun m =>
      (reconstructionFor X m,
       fun i => (∑ j, (X i j - reconstructionFor X m i j) ^ 2) / (p : ℚ)) := by
  constructor
  · simp [testImages]
  · rfl

/-! ## C9: purity / determinism of the pipeline -/

/-- C9: the pipeline output depends on nothing but its arguments.  pca
consults the outside world only through the single eigensolver call on the
covariance matrix of `X`: two runs whose solver instances agree on that one
matrix produce identical models, and test_images on those models produces
identical (reconstruction, MSE) results. -/
theorem pipeline_deterministic {n p q k : ℕ} (e₁ e₂ : EigSolver p)
    (X : Mat n p) (Y : Mat q p) (k' : ℕ)
    (h : e₁ (pcaCovMatrix X) = e₂ (pcaCovMatrix X)) :
    pca e₁ X k = pca e₂ X k ∧
    testImages Y (pca e₁ X k').toList = testImages Y (pca e₂ X k').toList := by
  have hpca : ∀ k'' : ℕ, pca e₁ X k'' = pca e₂ X k'' := by
    intro k''
    unfold pca pcaTopComponents pcaSortedComponents
    rw [h]
  exact ⟨hpca k, by rw [hpca k']⟩

/-- Concrete eigensolver for the C9 witness. -/
def eigC9 : EigSolver 2 := fun _ => { vals := ![1, 2], vecs := fun _ _ => 3 }

/-- Concrete matrices for the C9 witness. -/
def XC9 : Mat 2 2 := fun _ _ => 4

/-- Concrete test matrix for the C9 witness. -/
def YC9 : Mat 1 2 := fun _ _ => 5

/-- Witness for C9: two runs with the same solver instance trivially agree on
the covariance matrix, hence produce identical pca models and identical
test_images results. -/
theorem pipeline_deterministic_witness :
    pca eigC9 XC9 2 = pca eigC9 XC9 2 ∧
    testImages YC9 (pca eigC9 XC9 2).toList =
      testImages YC9 (pca eigC9 XC9 2).toList :=
  pipeline_deterministic eigC9 eigC9 XC9 YC9 2 rfl

/-! ## C2: the accuracy-count branches of main (lines 411-424) -/

/-- Line 417: the per-sample correctness test of the first counting branch
(samples of the first test subject; the correct model has list index 0):
`results_arnold[0][1][i] < results_arnold[1][1][i]`. -/
def arnoldBranchCorrect (mse0 mse1 : ℚ) : Bool := decide (mse0 < mse1)

/-- Line 421: the per-sample correctness test of the second counting branch
(samples of the second test subject; the correct model has list index 1):
`results_barack[0][1][i] > results_barack[1][1][i]`. -/
def barackBranchCorrect (mse0 mse1 : ℚ) : Bool := decide (mse0 > mse1)

/-- Modelled from the spec (section 4.4 classification decision, absent from
the code, which only has the two hardcoded branches above): the assigned
model index for a sample with per-model MSEs `(mse0, mse1)` is the argmin
over the model list, ties broken by lowest model-list index. -/
def argminModelIndex (mse0 mse1 : ℚ) : ℕ := if mse1 < mse0 then 1 else 0

/-- Lines 413-424: the aggregate accuracy count over both test batches, via
the two per-sample branch tests. -/
def mainCorrectCount (arnMSE0 arnMSE1 barMSE0 barMSE1 : List ℚ) : ℕ :=
  (List.range arnMSE0.length).foldl
    (fun c i => if arnoldBranchCorrect (arnMSE0.getD i 0) (arnMSE1.getD i 0)
      then c + 1 else c) 0 +
  (List.range barMSE0.length).foldl
    (fun c i => if barackBranchCorrect (barMSE0.getD i 0) (barMSE1.getD i 0)
      then c + 1 else c) 0

/-- C2: one of the two per-subject accuracy-count branches disagrees, on some
sample, with the rule "assign sample `i` to the model with minimal MSE, ties
broken by lowest model-list index": at a tie the first branch's strict `<`
denies the sample that the argmin rule awards to model index 0. -/
theorem branch_disagrees_with_argmin :
    (∃ a b : ℚ, arnoldBranchCorrect a b ≠ decide (argminModelIndex a b = 0)) ∨
    (∃ a b : ℚ, barackBranchCorrect a b ≠ decide (argminModelIndex a b = 1)) := by
  refine Or.inl ⟨0, 0, ?_⟩
  simp [arnoldBranchCorrect, argminModelIndex]

/-- Context for C2: the second branch (line 421) agrees with the argmin rule
on every sample, ties included. -/
theorem barack_branch_matches_argmin (a b : ℚ) :
    barackBranchCorrect a b = decide (argminModelIndex a b = 1) := by
  unfold barackBranchCorrect argminModelIndex
  by_cases h : b < a
  · simp [h, gt_iff_lt]
  · simp [h, gt_iff_lt]

/-- Context for C2: the first branch (line 417) agrees with the argmin rule
exactly on the samples whose two MSEs differ; at a tie it counts the sample
as misclassified while the argmin rule assigns it to model index 0. -/
theorem arnold_branch_matches_argmin_iff (a b : ℚ) :
    (arnoldBranchCorrect a b = decide (argminModelIndex a b = 0)) ↔ a ≠ b := by
  unfold arnoldBranchCorrect argminModelIndex
  rcases lt_trichotomy a b with h | h | h
  · simp [h, not_lt_of_gt h, ne_of_lt h]
  · simp [h]
  · simp [not_lt_of_gt h, h, ne_of_gt h, le_of_lt h]

/-! ## C8: the covariance matrix of pca step 3 -/

/-- C8: for at least two samples, the covariance matrix `np.cov(X_ctr.T)`
computed at line 220 equals `Xc^T · Xc` divided by `N - 1`, exactly (each
pixel position a variable, each sample an observation; the row means
`np.cov` re-subtracts are zero because `Xc` is column-centered). -/
theorem pcaCov_is_scaled_gram {n p : ℕ} (X : Mat n p) (hn : 2 ≤ n) :
    pcaCovMatrix X = fun i j =>
      (Matrix.transpose (centerMatrix X) * centerMatrix X) i j / ((n : ℚ) - 1) := by
  have hn0 : (n : ℚ) ≠ 0 := by
    have h2 : (0 : ℚ) < n := by exact_mod_cast Nat.lt_of_lt_of_le (by norm_num) hn
    exact ne_of_gt h2
  have hmean : ∀ a : Fin p, npMeanAxis1 (Matrix.transpose (centerMatrix X)) a = 0 := by
    intro a
    unfold npMeanAxis1
    have hsum : ∑ t, Matrix.transpose (centerMatrix X) a t = 0 := by
      simp only [Matrix.transpose_apply]
      unfold centerMatrix npMeanAxis0
      rw [Finset.sum_sub_distrib, Finset.sum_const, Finset.card_univ,
        Fintype.card_fin, nsmul_eq_mul, mul_div_cancel₀ _ hn0, sub_self]
    rw [hsum, zero_div]
  funext i j
  unfold pcaCovMatrix npCov
  simp only [hmean, sub_zero, Matrix.mul_apply, Matrix.transpose_apply]

/-- Concrete 2x1 data matrix for the C8 witness. -/
def XC8 : Mat 2 1 := fun i _ => if i = 0 then 0 else 2

/-- Witness for C8 at a concrete input with two samples and one pixel. -/
theorem pcaCov_is_scaled_gram_witness :
    pcaCovMatrix XC8 = fun i j =>
      (Matrix.transpose (centerMatrix XC8) * centerMatrix XC8) i j /
        (((2 : ℕ) : ℚ) - 1) :=
  pcaCov_is_scaled_gram XC8 (by decide)

end AorB
